import Mathlib

/-!
Verification of the Placement-portal backend against its specification.

The development shallowly embeds the two files the claims are about:
* backend/utils/score_resume.py — the resume scoring function;
* backend/server.py — the round-transition endpoints and the per-drive
  application ranking.

Python floats are modelled as rationals; Python `round(x, 2)` is modelled as
rounding to the nearest hundredth (ties do not occur in any claim, so the
tie-breaking convention is immaterial).
-/

/-- Python `round(x, 2)`: round to the nearest multiple of 1/100. -/
def roundTo2 (q : ℚ) : ℚ := ((⌊q * 100 + 1 / 2⌋ : ℤ) : ℚ) / 100

/-- Python `s.lower()`: lower-case every character of the string. -/
def lowerString (s : String) : String := String.mk (s.data.map Char.toLower)

/-- Lower-casing a list of skill strings, as `[s.lower() for s in skills]`. -/
def lowerList (skills : List String) : List String := skills.map lowerString

/-- The distinct matched skills: `set(lowered student) & set(lowered required)`,
as a duplicate-free list. -/
def matchedSkills (student_skills required_skills : List String) : List String :=
  ((lowerList student_skills).dedup) ∩ (lowerList required_skills)

/-- Text-similarity component of `score_resume` (server computes a TF-IDF cosine
similarity with sklearn; that numeric result is the `similarity` parameter here,
and the `try/except` fallback to 0 is the instance `similarity = 0`).
`text_score = similarity * 60` only when both texts are non-empty. -/
def textScore (resume_text job_description : String) (similarity : ℚ) : ℚ :=
  if resume_text ≠ "" ∧ job_description ≠ "" then similarity * 60 else 0

/-- Skills component of `score_resume`:
`(len(matched_skills) / len(required_skills)) * 30` when both lists are
non-empty (with the redundant inner `if len(required_skills) > 0` kept). -/
def skillsScore (student_skills required_skills : List String) : ℚ :=
  if required_skills ≠ [] ∧ student_skills ≠ [] then
    if 0 < required_skills.length then
      ((matchedSkills student_skills required_skills).length : ℚ) /
        (required_skills.length : ℚ) * 30
    else 0
  else 0

/-- CGPA component of `score_resume`: the eligible branch normalises the CGPA
(`(cgpa / 10.0) * 10`), the penalty branch is `(cgpa / min_cgpa) * 5` guarded
by `min_cgpa > 0`. -/
def cgpaScore (student_cgpa min_cgpa : ℚ) : ℚ :=
  if min_cgpa ≤ student_cgpa then student_cgpa / 10 * 10
  else if 0 < min_cgpa then student_cgpa / min_cgpa * 5 else 0

/-- The composite scorer of score_resume.py:
`round(min(100, max(0, text_score + skills_score + cgpa_score)), 2)`. -/
def score_resume (resume_text : String) (student_skills : List String)
    (student_cgpa : ℚ) (job_description : String) (required_skills : List String)
    (min_cgpa : ℚ) (similarity : ℚ) : ℚ :=
  roundTo2 (min 100 (max 0 (textScore resume_text job_description similarity +
    skillsScore student_skills required_skills + cgpaScore student_cgpa min_cgpa)))

/-!
Embedding of the application state and the TPO endpoints of backend/server.py.

MongoDB collections are modelled as lists of documents. `update_one` modifies
the first document matching the id filter, and silently matches nothing when no
document has that id. Application documents carry `id`, `student_id`,
`drive_id`, `current_round`, `round_history` and an optional `ai_score` (the
field may be absent from a raw document, hence `Option`). Sending the
notification emails is an external effect that does not change the state;
only the length of the collected `selected_emails` list (reported as
`emails_sent`) is modelled. Role checks on `current_user` are outside the
claims and not modelled.
-/

structure RoundRecord where
  round : String
  selected_at : String
deriving DecidableEq

structure Application where
  id : String
  student_id : String
  drive_id : String
  current_round : String
  round_history : List RoundRecord
  ai_score : Option ℚ
deriving DecidableEq

structure Student where
  id : String
  email : String
  name : String
deriving DecidableEq

structure Drive where
  id : String
  company_name : String
  role : String
deriving DecidableEq

structure Db where
  applications : List Application
  users : List Student
  drives : List Drive
deriving DecidableEq

/-- db.applications.find_one on an id filter: first matching document. -/
def findApp (apps : List Application) (i : String) : Option Application :=
  apps.find? (fun a => a.id == i)

/-- db.applications.update_one on an id filter: rewrite the first matching
document with f, or do nothing when no document matches. -/
def updateFirst (apps : List Application) (i : String)
    (f : Application → Application) : List Application :=
  match apps with
  | [] => []
  | a :: rest => if a.id = i then f a :: rest else a :: updateFirst rest i f

/-- The update applied by select_for_round:
`$set current_round = next_round` and `$push round_history = round_update`. -/
def advanceApp (next_round now : String) (a : Application) : Application :=
  { a with current_round := next_round,
           round_history := a.round_history ++ [⟨next_round, now⟩] }

/-- The update applied by reject_applications:
`$set current_round = "Rejected"` only. -/
def rejectApp (a : Application) : Application :=
  { a with current_round := "Rejected" }

/-- Pointwise description of what the select-for-round batch does to the
applications collection: advance the targeted documents, keep the rest. -/
def advanceTargets (ids : List String) (next_round now : String)
    (apps : List Application) : List Application :=
  apps.map (fun a => if a.id ∈ ids then advanceApp next_round now a else a)

/-- Pointwise description of what the reject batch does to the applications
collection: reject the targeted documents, keep the rest. -/
def rejectTargets (ids : List String) (apps : List Application) :
    List Application :=
  apps.map (fun a => if a.id ∈ ids then rejectApp a else a)

/-- Result reported by select_for_round: the count interpolated into the
message "Selected {n} students for {next_round}", and emails_sent. -/
structure SelectResult where
  message_count : ℕ
  emails_sent : ℕ
deriving DecidableEq

/-- The per-id loop of select_for_round: for each id, fetch the application;
when found, update it and record the applicant (when the user lookup
succeeds) for the email batch; when not found, skip silently. Returns the
updated collection and the collected selected_emails. -/
def selectLoop (apps : List Application) (users : List Student)
    (ids : List String) (next_round now : String) :
    List Application × List Student :=
  match ids with
  | [] => (apps, [])
  | i :: rest =>
    match findApp apps i with
    | none => selectLoop apps users rest next_round now
    | some application =>
      let r := selectLoop (updateFirst apps i (advanceApp next_round now))
        users rest next_round now
      match users.find? (fun u => u.id == application.student_id) with
      | some student => (r.1, student :: r.2)
      | none => r

/-- POST /tpo/select-for-round: 404 when the drive does not exist, otherwise
run the batch loop and report `len(application_ids)` in the message together
with the number of emails sent. -/
def select_for_round (db : Db) (application_ids : List String)
    (next_round drive_id now : String) : Except ℕ (Db × SelectResult) :=
  match db.drives.find? (fun d => d.id == drive_id) with
  | none => Except.error 404
  | some _ =>
    let r := selectLoop db.applications db.users application_ids next_round now
    Except.ok ({ db with applications := r.1 },
      ⟨application_ids.length, r.2.length⟩)

/-- POST /tpo/reject-applications: update each listed application (silently
skipping unknown ids) and report `len(application_ids)`. -/
def reject_applications (db : Db) (application_ids : List String) : Db × ℕ :=
  let apps :=
    application_ids.foldl (fun acc i => updateFirst acc i rejectApp) db.applications
  ({ db with applications := apps }, application_ids.length)

/-- Sort key of the ranking: `x.get` of `ai_score` with default 0 — a document
without the field is treated as score 0 (the lookup cannot fail). -/
def sortKey (a : Application) : ℚ := a.ai_score.getD 0

/-- a may come before b in the ranking: descending ai_score with ties allowed. -/
def scoreGE (a b : Application) : Prop := sortKey b ≤ sortKey a

instance : DecidableRel scoreGE :=
  fun a b => inferInstanceAs (Decidable (sortKey b ≤ sortKey a))

instance : IsTotal Application scoreGE :=
  ⟨fun a b => le_total (sortKey b) (sortKey a)⟩

instance : IsTrans Application scoreGE :=
  ⟨fun _ _ _ hab hbc => le_trans hbc hab⟩

/-- applications.sort(key=..., reverse=True): Python list.sort is a stable
sort, modelled by the stable insertion sort on the descending-score order. -/
def sortApplications (apps : List Application) : List Application :=
  List.insertionSort scoreGE apps

/-- GET /applications/drive/{drive_id}: the applications of the drive, sorted
by ai_score descending (student/profile enrichment only adds display data and
is not modelled). -/
def get_drive_applications (db : Db) (drive_id : String) : List Application :=
  sortApplications (db.applications.filter (fun a => a.drive_id == drive_id))

/-! Concrete data used by witnesses and counterexamples. -/

def stu1 : Student := ⟨"s1", "s1@mail", "Stu One"⟩

def stu2 : Student := ⟨"s2", "s2@mail", "Stu Two"⟩

def stu3 : Student := ⟨"s3", "s3@mail", "Stu Three"⟩

def drv1 : Drive := ⟨"d1", "Acme", "Engineer"⟩

def appA : Application := ⟨"a1", "s1", "d1", "Applied", [], none⟩

def appB : Application := ⟨"a2", "s2", "d1", "Applied", [], none⟩

def appC : Application := ⟨"a3", "s3", "d1", "Applied", [], none⟩

def appRej : Application := ⟨"r1", "s1", "d1", "Rejected", [], none⟩

def dbBatch : Db := ⟨[appA, appB, appC], [stu1, stu2, stu3], [drv1]⟩

def dbRej : Db := ⟨[appRej], [stu1], [drv1]⟩

def appW1 : Application := ⟨"w1", "s1", "d1", "Applied", [], some 72.5⟩

def appW2 : Application := ⟨"w2", "s2", "d1", "Applied", [], some 91⟩

def appW3 : Application := ⟨"w3", "s3", "d1", "Applied", [], some 91⟩

def appW4 : Application := ⟨"w4", "s1", "d1", "Applied", [], some 40⟩

def appN : Application := ⟨"n1", "s1", "d1", "Applied", [], none⟩

def appP : Application := ⟨"p1", "s2", "d1", "Applied", [], some 5⟩

lemma roundTo2_mono {a b : ℚ} (h : a ≤ b) : roundTo2 a ≤ roundTo2 b := by
  have h2 : ⌊a * 100 + 1 / 2⌋ ≤ ⌊b * 100 + 1 / 2⌋ := Int.floor_mono (by linarith)
  have h3 : ((⌊a * 100 + 1 / 2⌋ : ℤ) : ℚ) ≤ ((⌊b * 100 + 1 / 2⌋ : ℤ) : ℚ) := by
    exact_mod_cast h2
  unfold roundTo2
  linarith

lemma roundTo2_eq (q : ℚ) (z : ℤ) (h1 : (z : ℚ) ≤ q * 100 + 1 / 2)
    (h2 : q * 100 + 1 / 2 < z + 1) : roundTo2 q = (z : ℚ) / 100 := by
  unfold roundTo2
  rw [Int.floor_eq_iff.mpr ⟨h1, h2⟩]

lemma roundTo2_zero : roundTo2 0 = 0 := by
  rw [roundTo2_eq 0 0 (by norm_num) (by norm_num)]
  norm_num

lemma roundTo2_hundred : roundTo2 100 = 100 := by
  rw [roundTo2_eq 100 10000 (by norm_num) (by norm_num)]
  norm_num

/-- Rounding after clamping to [0, 100] is the same as clamping after rounding. -/
lemma roundTo2_clamp (t : ℚ) :
    roundTo2 (min 100 (max 0 t)) = min 100 (max 0 (roundTo2 t)) := by
  rcases le_total t 0 with h0 | h0
  · have ht : roundTo2 t ≤ 0 := by
      have h := roundTo2_mono h0
      rwa [roundTo2_zero] at h
    rw [max_eq_left h0, min_eq_right (by norm_num : (0 : ℚ) ≤ 100), roundTo2_zero,
      max_eq_left ht, min_eq_right (by norm_num : (0 : ℚ) ≤ 100)]
  · rcases le_total 100 t with h1 | h1
    · have ht : 100 ≤ roundTo2 t := by
        have h := roundTo2_mono h1
        rwa [roundTo2_hundred] at h
      have ht0 : (0 : ℚ) ≤ roundTo2 t := le_trans (by norm_num) ht
      rw [max_eq_right h0, min_eq_left h1, roundTo2_hundred, max_eq_right ht0,
        min_eq_left ht]
    · have ht0 : (0 : ℚ) ≤ roundTo2 t := by
        have h := roundTo2_mono h0
        rwa [roundTo2_zero] at h
      have ht1 : roundTo2 t ≤ 100 := by
        have h := roundTo2_mono h1
        rwa [roundTo2_hundred] at h
      rw [max_eq_right h0, min_eq_right h1, max_eq_right ht0, min_eq_right ht1]

/-- C1: for every input (including empty texts, empty skill lists and zero
CGPA) the composite scorer returns
`clamp(round(text + skills + cgpa, 2), 0, 100)`, hence the returned
ai_score always lies in [0, 100]. -/
theorem score_resume_clamped (resume_text job_description : String)
    (student_skills required_skills : List String)
    (student_cgpa min_cgpa similarity : ℚ) :
    score_resume resume_text student_skills student_cgpa job_description
        required_skills min_cgpa similarity
      = min 100 (max 0 (roundTo2 (textScore resume_text job_description similarity +
          skillsScore student_skills required_skills +
          cgpaScore student_cgpa min_cgpa))) ∧
    0 ≤ score_resume resume_text student_skills student_cgpa job_description
        required_skills min_cgpa similarity ∧
    score_resume resume_text student_skills student_cgpa job_description
        required_skills min_cgpa similarity ≤ 100 := by
  have h := roundTo2_clamp (textScore resume_text job_description similarity +
    skillsScore student_skills required_skills + cgpaScore student_cgpa min_cgpa)
  refine ⟨h, ?_, ?_⟩
  · rw [score_resume, h]
    exact le_min (by norm_num) (le_max_left 0 _)
  · rw [score_resume, h]
    exact min_le_left _ _

/-- C6: end-to-end scenario: empty resume gives text score 0; skills
{java, sql} against {java, python} give (1/2)*30 = 15; CGPA 8.5 against
minimum 7.0 gives 8.5 via the eligible branch; the composite is 23.5. -/
theorem score_resume_scenario (similarity : ℚ) :
    textScore "" "Java developer role" similarity = 0 ∧
    skillsScore ["java", "sql"] ["java", "python"] = 15 ∧
    cgpaScore 8.5 7 = 8.5 ∧
    score_resume "" ["java", "sql"] 8.5 "Java developer role" ["java", "python"]
      7 similarity = 23.5 := by
  have ht : textScore "" "Java developer role" similarity = 0 := by
    simp [textScore]
  have hm : (matchedSkills ["java", "sql"] ["java", "python"]).length = 1 := by decide
  have hs : skillsScore ["java", "sql"] ["java", "python"] = 15 := by
    simp [skillsScore, hm]
    norm_num
  have hc : cgpaScore 8.5 7 = 8.5 := by
    rw [cgpaScore, if_pos (by norm_num : (7 : ℚ) ≤ 8.5)]
    norm_num
  refine ⟨ht, hs, hc, ?_⟩
  rw [score_resume, ht, hs, hc]
  have h1 : (0 : ℚ) + 15 + 8.5 = 23.5 := by norm_num
  rw [h1, max_eq_right (by norm_num : (0 : ℚ) ≤ 23.5),
    min_eq_right (by norm_num : (23.5 : ℚ) ≤ 100),
    roundTo2_eq 23.5 2350 (by norm_num) (by norm_num)]
  norm_num

/-- C7: for min_cgpa > 0 the CGPA scorer has a jump at the threshold: strictly
below the threshold the penalty branch returns (cgpa / min_cgpa) * 5, which
approaches 5 from below as cgpa approaches min_cgpa, while exactly at the
threshold the eligible branch returns min_cgpa itself; for min_cgpa ≤ 0 the
penalty branch returns 0. The two one-sided values disagree (a genuine jump)
exactly when min_cgpa differs from 5. -/
theorem cgpa_threshold_jump :
    (∀ m : ℚ, 0 < m →
      (∀ c : ℚ, c < m → cgpaScore c m = c / m * 5) ∧
      cgpaScore m m = m ∧
      (∀ ε : ℚ, 0 < ε → ∃ δ : ℚ, 0 < δ ∧
        ∀ c : ℚ, m - δ < c → c < m →
          5 - ε < cgpaScore c m ∧ cgpaScore c m < 5)) ∧
    (∀ m c : ℚ, m ≤ 0 → c < m → cgpaScore c m = 0) ∧
    (∀ m : ℚ, 0 < m → m ≠ 5 → cgpaScore m m ≠ 5) := by
  refine ⟨?_, ?_, ?_⟩
  · intro m hm
    have hpen : ∀ c : ℚ, c < m → cgpaScore c m = c / m * 5 := by
      intro c hc
      rw [cgpaScore, if_neg (not_le.mpr hc), if_pos hm]
    refine ⟨hpen, ?_, ?_⟩
    · rw [cgpaScore, if_pos le_rfl]
      exact div_mul_cancel₀ m (by norm_num)
    · intro ε hε
      refine ⟨min m (ε * m / 5), lt_min hm (by positivity), ?_⟩
      intro c h1 h2
      rw [hpen c h2]
      have h3 : m - ε * m / 5 < c := by
        have h4 := min_le_right m (ε * m / 5)
        linarith
      constructor
      · rw [div_mul_eq_mul_div, lt_div_iff₀ hm]
        linarith
      · rw [div_mul_eq_mul_div, div_lt_iff₀ hm]
        linarith
  · intro m c hm hc
    rw [cgpaScore, if_neg (not_le.mpr hc), if_neg (not_lt.mpr hm)]
  · intro m hm hne h
    rw [cgpaScore, if_pos le_rfl, div_mul_cancel₀ m (by norm_num : (10 : ℚ) ≠ 0)] at h
    exact hne h

/-- Witness for C7: concrete instances of the three regimes. -/
theorem cgpa_threshold_jump_witness :
    cgpaScore 1 2 = 1 / 2 * 5 ∧ cgpaScore 2 2 = 2 ∧
    (∃ δ : ℚ, 0 < δ ∧ ∀ c : ℚ, 2 - δ < c → c < 2 →
      5 - 1 < cgpaScore c 2 ∧ cgpaScore c 2 < 5) ∧
    cgpaScore (-2) (-1) = 0 ∧ cgpaScore 2 2 ≠ 5 :=
  ⟨(cgpa_threshold_jump.1 2 (by norm_num)).1 1 (by norm_num),
    (cgpa_threshold_jump.1 2 (by norm_num)).2.1,
    (cgpa_threshold_jump.1 2 (by norm_num)).2.2 1 (by norm_num),
    cgpa_threshold_jump.2.1 (-1) (-2) (by norm_num) (by norm_num),
    cgpa_threshold_jump.2.2 2 (by norm_num) (by norm_num)⟩

/-- C9: the skills sub-score divides the number of distinct case-insensitively
matched skills by the raw length of the required_skills list; duplicate or
case-variant entries in required_skills strictly lower the score below the
set-based fraction whenever at least one skill matches, and the score always
lies in [0, 30]. -/
theorem skills_score_denominator (student_skills required_skills : List String)
    (hs : student_skills ≠ []) (hr : required_skills ≠ []) :
    skillsScore student_skills required_skills
      = ((matchedSkills student_skills required_skills).length : ℚ) /
          (required_skills.length : ℚ) * 30 ∧
    0 ≤ skillsScore student_skills required_skills ∧
    skillsScore student_skills required_skills ≤ 30 ∧
    ((lowerList required_skills).dedup.length < required_skills.length →
      1 ≤ (matchedSkills student_skills required_skills).length →
      skillsScore student_skills required_skills
        < ((matchedSkills student_skills required_skills).length : ℚ) /
            ((lowerList required_skills).dedup.length : ℚ) * 30) := by
  have hform : skillsScore student_skills required_skills
      = ((matchedSkills student_skills required_skills).length : ℚ) /
          (required_skills.length : ℚ) * 30 := by
    rw [skillsScore, if_pos ⟨hr, hs⟩, if_pos (List.length_pos.mpr hr)]
  have hnd : (matchedSkills student_skills required_skills).Nodup :=
    List.Nodup.inter _ (List.nodup_dedup _)
  have hsub : matchedSkills student_skills required_skills ⊆
      lowerList required_skills := List.inter_subset_right
  have h1 : (matchedSkills student_skills required_skills).length ≤
      (lowerList required_skills).dedup.length := by
    have h2 : (matchedSkills student_skills required_skills).toFinset ⊆
        (lowerList required_skills).toFinset := fun x hx =>
      List.mem_toFinset.mpr (hsub (List.mem_toFinset.mp hx))
    have h3 := Finset.card_le_card h2
    rwa [List.toFinset_card_of_nodup hnd, List.card_toFinset] at h3
  have h2 : (lowerList required_skills).dedup.length ≤ required_skills.length := by
    have h3 := (List.dedup_sublist (lowerList required_skills)).length_le
    rwa [lowerList, List.length_map] at h3
  have hlen : (0 : ℚ) < (required_skills.length : ℚ) := by
    exact_mod_cast List.length_pos.mpr hr
  refine ⟨hform, ?_, ?_, ?_⟩
  · rw [hform]
    positivity
  · rw [hform]
    have hM : ((matchedSkills student_skills required_skills).length : ℚ) ≤
        (required_skills.length : ℚ) := by
      exact_mod_cast le_trans h1 h2
    rw [div_mul_eq_mul_div, div_le_iff₀ hlen]
    linarith
  · intro hd hm
    have hdl : 0 < (lowerList required_skills).dedup.length := lt_of_lt_of_le hm h1
    have h4 : ((matchedSkills student_skills required_skills).length : ℚ) /
        (required_skills.length : ℚ) <
        ((matchedSkills student_skills required_skills).length : ℚ) /
        ((lowerList required_skills).dedup.length : ℚ) :=
      div_lt_div_of_pos_left (by exact_mod_cast hm) (by exact_mod_cast hdl)
        (by exact_mod_cast hd)
    rw [hform]
    exact mul_lt_mul_of_pos_right h4 (by norm_num)

/-- Witness for C9: student skill list [java] against required list
[Java, java] (a case-variant duplicate): the score 15 is strictly below
the set-based fraction 30. -/
theorem skills_score_denominator_witness :
    skillsScore ["java"] ["Java", "java"]
      < ((matchedSkills ["java"] ["Java", "java"]).length : ℚ) /
          ((lowerList ["Java", "java"]).dedup.length : ℚ) * 30 :=
  (skills_score_denominator ["java"] ["Java", "java"] (by decide)
    (by decide)).2.2.2 (by decide) (by decide)

lemma updateFirst_of_forall_ne {apps : List Application} {i : String}
    (f : Application → Application) (h : ∀ a ∈ apps, a.id ≠ i) :
    updateFirst apps i f = apps := by
  induction apps with
  | nil => rfl
  | cons a rest ih =>
    simp only [updateFirst]
    rw [if_neg (h a (List.mem_cons_self a rest)),
      ih (fun b hb => h b (List.mem_cons_of_mem a hb))]

lemma updateFirst_eq_map (f : Application → Application) (i : String) :
    ∀ (apps : List Application), (apps.map Application.id).Nodup →
      updateFirst apps i f = apps.map (fun a => if a.id = i then f a else a) := by
  intro apps
  induction apps with
  | nil => intro _; rfl
  | cons a rest ih =>
    intro h
    rw [List.map_cons] at h
    obtain ⟨ha, hrest⟩ := List.nodup_cons.mp h
    by_cases hai : a.id = i
    · simp only [updateFirst, if_pos hai, List.map_cons]
      have hmap : rest.map (fun b => if b.id = i then f b else b) = rest := by
        conv_rhs => rw [← List.map_id rest]
        apply List.map_congr_left
        intro b hb
        have hbi : b.id ≠ i := by
          intro hb2
          have hmem : a.id ∈ rest.map Application.id := by
            rw [hai, ← hb2]
            exact List.mem_map_of_mem Application.id hb
          exact ha hmem
        rw [if_neg hbi]
        rfl
      rw [hmap]
    · simp only [updateFirst, if_neg hai, List.map_cons]
      rw [ih hrest]

lemma foldl_updateFirst (f : Application → Application)
    (hf : ∀ a, (f a).id = a.id) :
    ∀ (ids : List String) (apps : List Application), ids.Nodup →
      (apps.map Application.id).Nodup →
      ids.foldl (fun acc i => updateFirst acc i f) apps
        = apps.map (fun a => if a.id ∈ ids then f a else a) := by
  intro ids
  induction ids with
  | nil =>
    intro apps _ _
    rw [List.foldl_nil]
    conv_lhs => rw [← List.map_id apps]
    apply List.map_congr_left
    intro a _
    rw [if_neg (List.not_mem_nil a.id)]
    rfl
  | cons i rest ih =>
    intro apps hids happs
    obtain ⟨hi, hrest⟩ := List.nodup_cons.mp hids
    rw [List.foldl_cons, updateFirst_eq_map f i apps happs]
    have hpres : ((apps.map (fun a => if a.id = i then f a else a)).map
        Application.id) = apps.map Application.id := by
      rw [List.map_map]
      apply List.map_congr_left
      intro a _
      by_cases h : a.id = i
      · simp only [Function.comp_apply, if_pos h, hf]
      · simp only [Function.comp_apply, if_neg h]
    rw [ih (apps.map (fun a => if a.id = i then f a else a)) hrest
      (by rw [hpres]; exact happs)]
    rw [List.map_map]
    apply List.map_congr_left
    intro a _
    by_cases h : a.id = i
    · simp only [Function.comp_apply, if_pos h]
      rw [if_neg (by rw [hf, h]; exact hi),
        if_pos (by rw [h]; exact List.mem_cons_self i rest)]
    · simp only [Function.comp_apply, if_neg h]
      by_cases h2 : a.id ∈ rest
      · rw [if_pos h2, if_pos (List.mem_cons_of_mem i h2)]
      · rw [if_neg h2, if_neg (by
          intro hmem
          rcases List.mem_cons.mp hmem with h3 | h3
          · exact h h3
          · exact h2 h3)]

lemma selectLoop_fst (users : List Student) (next_round now : String) :
    ∀ (ids : List String) (apps : List Application),
      (selectLoop apps users ids next_round now).1
        = ids.foldl (fun acc i => updateFirst acc i (advanceApp next_round now))
            apps := by
  intro ids
  induction ids with
  | nil => intro apps; rfl
  | cons i rest ih =>
    intro apps
    rw [List.foldl_cons]
    cases hfind : findApp apps i with
    | none =>
      have hne : ∀ a ∈ apps, a.id ≠ i := by
        intro a ha hai
        have h2 := List.find?_eq_none.mp hfind a ha
        simp [hai] at h2
      rw [updateFirst_of_forall_ne (advanceApp next_round now) hne]
      simp only [selectLoop, hfind]
      exact ih apps
    | some application =>
      simp only [selectLoop, hfind]
      cases hu : users.find? (fun u => u.id == application.student_id) with
      | none =>
        simp only [hu]
        exact ih _
      | some student =>
        simp only [hu]
        exact ih _

lemma select_for_round_ok (db : Db) (ids : List String)
    (next_round drive_id now : String) (hids : ids.Nodup)
    (happs : (db.applications.map Application.id).Nodup)
    (hd : (db.drives.find? (fun d => d.id == drive_id)).isSome) :
    select_for_round db ids next_round drive_id now
      = Except.ok ({ db with applications := advanceTargets ids next_round now db.applications },
          ⟨ids.length,
            (selectLoop db.applications db.users ids next_round now).2.length⟩) := by
  obtain ⟨d, hd2⟩ := Option.isSome_iff_exists.mp hd
  simp only [select_for_round, hd2]
  rw [selectLoop_fst db.users next_round now ids db.applications,
    foldl_updateFirst (advanceApp next_round now) (fun a => rfl) ids
      db.applications hids happs]
  rfl

/-- C2 counterexample: one unknown id among three valid ones — the reported
message count is 4 (the full input length), not 3 (the valid ones). -/
theorem batch_count_counterexample :
    (select_for_round dbBatch ["zz", "a1", "a2", "a3"] "Aptitude" "d1" "t2").map
        (fun r => r.2.message_count) = Except.ok 4 ∧
    (reject_applications dbBatch ["zz", "a1", "a2", "a3"]).2 = 4 ∧
    (4 : ℕ) ≠ 3 :=
  ⟨rfl, rfl, by decide⟩

/-- C2 (amended): a batch round transition updates exactly the applications
whose ids occur in the input list, skips unknown ids without surfacing an
exception (the call still returns ok), and reports the full length of the
input list as the message count (only emails_sent reflects the valid
applications whose student record exists). Applications not targeted remain
unchanged in the collection. -/
theorem batch_partial_failure (db : Db) (ids : List String)
    (next_round drive_id now : String) (hids : ids.Nodup)
    (happs : (db.applications.map Application.id).Nodup)
    (hd : (db.drives.find? (fun d => d.id == drive_id)).isSome) :
    select_for_round db ids next_round drive_id now
      = Except.ok ({ db with applications := advanceTargets ids next_round now db.applications },
          ⟨ids.length,
            (selectLoop db.applications db.users ids next_round now).2.length⟩) ∧
    (reject_applications db ids).2 = ids.length ∧
    ∀ a ∈ db.applications, a.id ∉ ids →
      a ∈ advanceTargets ids next_round now db.applications := by
  refine ⟨select_for_round_ok db ids next_round drive_id now hids happs hd, rfl, ?_⟩
  intro a ha hna
  simp only [advanceTargets]
  refine List.mem_map.mpr ⟨a, ha, ?_⟩
  rw [if_neg hna]

/-- Witness for C2: the concrete batch of one unknown and three valid ids
returns ok with message count 4 and three emails sent. -/
theorem batch_partial_failure_witness :
    select_for_round dbBatch ["zz", "a1", "a2", "a3"] "Aptitude" "d1" "t2"
      = Except.ok ({ dbBatch with applications := advanceTargets ["zz", "a1", "a2", "a3"] "Aptitude" "t2" dbBatch.applications },
          ⟨4, 3⟩) := by
  have h := (batch_partial_failure dbBatch ["zz", "a1", "a2", "a3"] "Aptitude"
    "d1" "t2" (by decide) (by decide) (by decide)).1
  rw [h]
  rfl

/-- C3 counterexample: an application whose current_round is Rejected is still
advanced by select_for_round — its round becomes Coding and its history
grows, refuting terminality of Rejected under advances. -/
theorem rejected_advances_counterexample :
    select_for_round dbRej ["r1"] "Coding" "d1" "t1"
      = Except.ok (⟨[⟨"r1", "s1", "d1", "Coding", [⟨"Coding", "t1"⟩], none⟩], [stu1], [drv1]⟩, ⟨1, 1⟩) ∧
    ("Coding" : String) ≠ "Rejected" :=
  ⟨rfl, by decide⟩

/-- C3 (amended): Rejected is terminal only under reject: rejecting an already
rejected application leaves the document completely unchanged (round and
history), but an advance request on a rejected application is still accepted —
it overwrites current_round with the target round and appends to
round_history. -/
theorem rejected_terminal_only_for_reject :
    (∀ (db : Db) (ids : List String), ids.Nodup →
      (db.applications.map Application.id).Nodup →
      ∀ a ∈ db.applications, a.current_round = "Rejected" →
        a ∈ (reject_applications db ids).1.applications) ∧
    (∀ a : Application, a.current_round = "Rejected" → rejectApp a = a) ∧
    (∀ (a : Application) (next_round now : String), a.current_round = "Rejected" →
      (advanceApp next_round now a).current_round = next_round ∧
      (advanceApp next_round now a).round_history
        = a.round_history ++ [⟨next_round, now⟩]) := by
  have hfix : ∀ a : Application, a.current_round = "Rejected" → rejectApp a = a := by
    intro a ha
    cases a with
    | mk i sid did cr rh sc =>
      have ha2 : cr = "Rejected" := ha
      subst ha2
      rfl
  refine ⟨?_, hfix, ?_⟩
  · intro db ids hids happs a ha hrej
    have hmap : (reject_applications db ids).1.applications
        = rejectTargets ids db.applications :=
      foldl_updateFirst rejectApp (fun a2 => rfl) ids db.applications hids happs
    rw [hmap]
    simp only [rejectTargets]
    refine List.mem_map.mpr ⟨a, ha, ?_⟩
    by_cases h : a.id ∈ ids
    · rw [if_pos h, hfix a hrej]
    · rw [if_neg h]
  · intro a next_round now h
    exact ⟨rfl, rfl⟩

/-- Witness for C3: the concrete rejected application is untouched by a reject
batch naming it, while an advance on it still changes round and history. -/
theorem rejected_terminal_only_for_reject_witness :
    appRej ∈ (reject_applications dbRej ["r1"]).1.applications ∧
    rejectApp appRej = appRej ∧
    (advanceApp "Coding" "t1" appRej).current_round = "Coding" ∧
    (advanceApp "Coding" "t1" appRej).round_history
      = appRej.round_history ++ [⟨"Coding", "t1"⟩] :=
  ⟨rejected_terminal_only_for_reject.1 dbRej ["r1"] (by decide) (by decide)
      appRej (by decide) rfl,
    rejected_terminal_only_for_reject.2.1 appRej rfl,
    (rejected_terminal_only_for_reject.2.2 appRej "Coding" "t1" rfl).1,
    (rejected_terminal_only_for_reject.2.2 appRej "Coding" "t1" rfl).2⟩

/-- C4: the reject batch sets current_round to Rejected on the targeted
applications and never touches round_history — the final collection is the
pointwise rejectTargets image, and rejectApp changes only current_round,
appending nothing to the history. -/
theorem reject_applications_frame (db : Db) (ids : List String)
    (hids : ids.Nodup) (happs : (db.applications.map Application.id).Nodup) :
    (reject_applications db ids).1.applications = rejectTargets ids db.applications ∧
    ∀ a : Application, (rejectApp a).current_round = "Rejected" ∧
      (rejectApp a).round_history = a.round_history := by
  constructor
  · exact foldl_updateFirst rejectApp (fun a => rfl) ids db.applications hids happs
  · intro a
    exact ⟨rfl, rfl⟩

/-- Witness for C4: concrete one-application reject batch. -/
theorem reject_applications_frame_witness :
    (reject_applications dbBatch ["a1"]).1.applications
      = rejectTargets ["a1"] dbBatch.applications ∧
    (rejectApp appA).current_round = "Rejected" ∧
    (rejectApp appA).round_history = appA.round_history :=
  ⟨(reject_applications_frame dbBatch ["a1"] (by decide) (by decide)).1,
    ((reject_applications_frame dbBatch ["a1"] (by decide) (by decide)).2 appA).1,
    ((reject_applications_frame dbBatch ["a1"] (by decide) (by decide)).2 appA).2⟩

/-- C5: the advance batch updates each targeted application by appending
exactly one history record carrying the target round and the timestamp and
setting current_round to the target; a freshly created application (round
Applied, empty history) advanced to Coding ends with round Coding and a
one-entry history for Coding only. -/
theorem select_for_round_appends_history (db : Db) (ids : List String)
    (next_round drive_id now : String) (hids : ids.Nodup)
    (happs : (db.applications.map Application.id).Nodup)
    (hd : (db.drives.find? (fun d => d.id == drive_id)).isSome) :
    select_for_round db ids next_round drive_id now
      = Except.ok ({ db with applications := advanceTargets ids next_round now db.applications },
          ⟨ids.length,
            (selectLoop db.applications db.users ids next_round now).2.length⟩) ∧
    (∀ a : Application, (advanceApp next_round now a).current_round = next_round ∧
      (advanceApp next_round now a).round_history
        = a.round_history ++ [⟨next_round, now⟩]) ∧
    (∀ (i sid did : String) (sc : Option ℚ),
      advanceApp "Coding" now ⟨i, sid, did, "Applied", [], sc⟩
        = ⟨i, sid, did, "Coding", [⟨"Coding", now⟩], sc⟩) := by
  refine ⟨select_for_round_ok db ids next_round drive_id now hids happs hd, ?_, ?_⟩
  · intro a
    exact ⟨rfl, rfl⟩
  · intro i sid did sc
    rfl

/-- Witness for C5: the fresh-application scenario at concrete values. -/
theorem select_for_round_appends_history_witness :
    advanceApp "Coding" "t3" ⟨"x1", "s1", "d1", "Applied", [], none⟩
      = ⟨"x1", "s1", "d1", "Coding", [⟨"Coding", "t3"⟩], none⟩ :=
  (select_for_round_appends_history dbBatch ["a1"] "Coding" "d1" "t3"
    (by decide) (by decide) (by decide)).2.2 "x1" "s1" "d1" none

/-- C8: the ranking of get_drive_applications is ordered by ai_score
descending, is a permutation of the input, and is stable: a pair already in
descending-or-tied order keeps its relative order; concretely, scores
[72.5, 91, 91, 40] come out as [91, 91, 72.5, 40] with the two 91 entries in
their original relative order. -/
theorem ranking_sorted_stable :
    (∀ apps : List Application, List.Sorted scoreGE (sortApplications apps) ∧
      List.Perm (sortApplications apps) apps) ∧
    (∀ (db : Db) (did : String), get_drive_applications db did
      = sortApplications (db.applications.filter (fun a => a.drive_id == did))) ∧
    (∀ (apps : List Application) (a b : Application), scoreGE a b →
      List.Sublist [a, b] apps → List.Sublist [a, b] (sortApplications apps)) ∧
    sortApplications [appW1, appW2, appW3, appW4] = [appW2, appW3, appW1, appW4] := by
  refine ⟨?_, ?_, ?_, ?_⟩
  · intro apps
    exact ⟨List.sorted_insertionSort scoreGE apps,
      List.perm_insertionSort scoreGE apps⟩
  · intro db did
    rfl
  · intro apps a b hab hsub
    exact List.pair_sublist_insertionSort hab hsub
  · have h34 : scoreGE appW3 appW4 := by
      show (40 : ℚ) ≤ 91
      norm_num
    have h23 : scoreGE appW2 appW3 := by
      show (91 : ℚ) ≤ 91
      norm_num
    have hn12 : ¬ scoreGE appW1 appW2 := by
      show ¬ ((91 : ℚ) ≤ 72.5)
      norm_num
    have hn13 : ¬ scoreGE appW1 appW3 := by
      show ¬ ((91 : ℚ) ≤ 72.5)
      norm_num
    have h14 : scoreGE appW1 appW4 := by
      show (40 : ℚ) ≤ 72.5
      norm_num
    have s3 : List.orderedInsert scoreGE appW3 [appW4] = [appW3, appW4] := by
      simp only [List.orderedInsert]
      rw [if_pos h34]
    have s2 : List.orderedInsert scoreGE appW2 [appW3, appW4]
        = [appW2, appW3, appW4] := by
      simp only [List.orderedInsert]
      rw [if_pos h23]
    have s1 : List.orderedInsert scoreGE appW1 [appW2, appW3, appW4]
        = [appW2, appW3, appW1, appW4] := by
      simp only [List.orderedInsert]
      rw [if_neg hn12, if_neg hn13, if_pos h14]
    show List.insertionSort scoreGE [appW1, appW2, appW3, appW4] = _
    simp only [List.insertionSort]
    rw [List.orderedInsert_nil, s3, s2, s1]

/-- Witness for C8: the two tied applications keep their original relative
order in the concrete ranking. -/
theorem ranking_sorted_stable_witness :
    List.Sublist [appW2, appW3] (sortApplications [appW1, appW2, appW3, appW4]) :=
  ranking_sorted_stable.2.2.1 [appW1, appW2, appW3, appW4] appW2 appW3
    (by show (91 : ℚ) ≤ 91; norm_num)
    (List.Sublist.cons appW1 (List.Sublist.cons₂ appW2
      (List.Sublist.cons₂ appW3 (List.nil_sublist [appW4]))))

/-- C10: an application without an ai_score field is ranked with key 0 (the
lookup cannot error) and therefore appears after every application with a
positive score in the sorted output. -/
theorem missing_ai_score_last (apps : List Application) (i j : ℕ)
    (hi : i < (sortApplications apps).length)
    (hj : j < (sortApplications apps).length)
    (hnone : ((sortApplications apps).get ⟨i, hi⟩).ai_score = none)
    (hpos : 0 < sortKey ((sortApplications apps).get ⟨j, hj⟩)) :
    sortKey ((sortApplications apps).get ⟨i, hi⟩) = 0 ∧ j < i := by
  have hzero : sortKey ((sortApplications apps).get ⟨i, hi⟩) = 0 := by
    rw [sortKey, hnone]
    rfl
  refine ⟨hzero, ?_⟩
  by_contra hni
  have hij : i ≤ j := Nat.le_of_not_lt hni
  have hsorted : List.Sorted scoreGE (sortApplications apps) :=
    List.sorted_insertionSort scoreGE apps
  rcases Nat.lt_or_ge i j with hlt | hge
  · have h := hsorted.rel_get_of_lt (show (⟨i, hi⟩ : Fin _) < ⟨j, hj⟩ from hlt)
    have h2 : sortKey ((sortApplications apps).get ⟨j, hj⟩)
        ≤ sortKey ((sortApplications apps).get ⟨i, hi⟩) := h
    rw [hzero] at h2
    exact absurd hpos (not_lt.mpr h2)
  · have heq : i = j := Nat.le_antisymm hij hge
    subst heq
    have h2 : sortKey ((sortApplications apps).get ⟨i, hj⟩) = 0 := hzero
    rw [h2] at hpos
    exact lt_irrefl 0 hpos

lemma sortNP_eq : sortApplications [appN, appP] = [appP, appN] := by
  have hnp : ¬ scoreGE appN appP := by
    show ¬ ((5 : ℚ) ≤ 0)
    norm_num
  show List.insertionSort scoreGE [appN, appP] = [appP, appN]
  simp only [List.insertionSort]
  rw [List.orderedInsert_nil]
  simp only [List.orderedInsert]
  rw [if_neg hnp]

lemma sortNP_len1 : 1 < (sortApplications [appN, appP]).length := by
  rw [sortNP_eq]
  norm_num

lemma sortNP_len0 : 0 < (sortApplications [appN, appP]).length := by
  rw [sortNP_eq]
  norm_num

/-- Witness for C10: in the two-application ranking the scoreless application
ends up strictly after the positively scored one, with key 0. -/
theorem missing_ai_score_last_witness :
    sortKey ((sortApplications [appN, appP]).get ⟨1, sortNP_len1⟩) = 0 ∧ 0 < 1 :=
  missing_ai_score_last [appN, appP] 1 0 sortNP_len1 sortNP_len0
    (by rw [List.get_of_eq sortNP_eq]; rfl)
    (by rw [List.get_of_eq sortNP_eq]; show (0 : ℚ) < 5; norm_num)
